import Mathlib

/-!
Verification development for `src/Converter.py` (class `AcfToSdfConverter`).

The Python source is shallowly embedded below.  Python floats are modelled as
exact rationals (`ℚ`); Python exceptions are modelled with `Except`/`Option`;
the Python `dict` (which preserves insertion order and keeps a key's original
position on overwrite) is modelled as an association list `List (String × Value)`
together with `dictInsert`.  All string operations used by the source
(`str.strip`, `str.split`, `str.split(sep)`, `str.startswith`, `str.endswith`,
`in`, `str.isdigit`, `float(...)`) are implemented on `List Char` below with
Python's semantics.
-/

namespace Converter

/-! ## Python string primitives -/

/-- Python whitespace characters recognised by `str.strip()` / `str.split()`
(space, tab, newline, carriage return, vertical tab, form feed). -/
def pyIsSpace (c : Char) : Bool :=
  c == ' ' || c == '\t' || c == '\n' || c == '\r' || c == Char.ofNat 11 || c == Char.ofNat 12

/-- Python `str.strip()`: drop leading and trailing whitespace. -/
def pyStripL (cs : List Char) : List Char :=
  ((cs.dropWhile pyIsSpace).reverse.dropWhile pyIsSpace).reverse

/-- Auxiliary for `pySplitWsL`: `acc` holds the current token reversed. -/
def splitWsAux : List Char → List Char → List (List Char)
  | [], acc => if acc.isEmpty then [] else [acc.reverse]
  | c :: cs, acc =>
    if pyIsSpace c then
      if acc.isEmpty then splitWsAux cs [] else acc.reverse :: splitWsAux cs []
    else splitWsAux cs (c :: acc)

/-- Python `str.split()` with no separator: split on runs of whitespace,
discarding empty tokens. -/
def pySplitWsL (cs : List Char) : List (List Char) :=
  splitWsAux cs []

/-- Auxiliary for `splitOnCharL`: `acc` holds the current piece reversed. -/
def splitOnCharAux (sep : Char) : List Char → List Char → List (List Char)
  | [], acc => [acc.reverse]
  | c :: cs, acc =>
    if c == sep then acc.reverse :: splitOnCharAux sep cs []
    else splitOnCharAux sep cs (c :: acc)

/-- Python `str.split(sep)` for a one-character separator: keeps empty pieces,
always returns at least one piece. -/
def splitOnCharL (sep : Char) (cs : List Char) : List (List Char) :=
  splitOnCharAux sep cs []

/-- Python `needle in hay` on strings: `needle` occurs as a contiguous
substring of `hay`. -/
def listHasSub (needle : List Char) : List Char → Bool
  | [] => needle.isEmpty
  | c :: t => needle.isPrefixOf (c :: t) || listHasSub needle t

/-- Python `str.isdigit()` (restricted to ASCII digits, which is all the
source ever feeds it): nonempty and all characters are digits. -/
def strDigitsL (cs : List Char) : Bool :=
  !cs.isEmpty && cs.all Char.isDigit

/-- Numeric value of a string of decimal digits. -/
def natOfDigits (ds : List Char) : Nat :=
  ds.foldl (fun a c => 10 * a + (c.toNat - 48)) 0

/-- Split a leading run of decimal digits from the rest. -/
def readDigits (cs : List Char) : List Char × List Char :=
  (cs.takeWhile Char.isDigit, cs.dropWhile Char.isDigit)

/-- Python `float(s)` on the decimal-notation subset the source format uses:
optional sign, integer digits, optional fractional part, optional exponent
(`float` also accepts `inf`/`nan`/underscores, which never occur in `.acf`
data and are treated as parse failures here).  Surrounding whitespace is
stripped as `float` does.  Returns `none` exactly where `float` raises
`ValueError`. -/
def tryParseFloatL (cs0 : List Char) : Option ℚ :=
  let cs := pyStripL cs0
  let p1 : ℚ × List Char :=
    match cs with
    | '-' :: r => (-1, r)
    | '+' :: r => (1, r)
    | r => (1, r)
  let sgn := p1.1
  let ip := (readDigits p1.2).1
  let cs1 := (readDigits p1.2).2
  let p2 : List Char × List Char :=
    match cs1 with
    | '.' :: r => readDigits r
    | r => ([], r)
  let fp := p2.1
  if ip.isEmpty && fp.isEmpty then none
  else
    let mant : ℚ := (natOfDigits ip : ℚ) + (natOfDigits fp : ℚ) / ((10 : ℚ) ^ fp.length)
    match p2.2 with
    | [] => some (sgn * mant)
    | e :: r =>
      if e == 'e' || e == 'E' then
        let p3 : ℤ × List Char :=
          match r with
          | '-' :: r2 => (-1, r2)
          | '+' :: r2 => (1, r2)
          | r2 => (1, r2)
        let ed := (readDigits p3.2).1
        let rest := (readDigits p3.2).2
        if ed.isEmpty || !rest.isEmpty then none
        else some (sgn * mant * (10 : ℚ) ^ (p3.1 * (natOfDigits ed : ℤ)))
      else none

/-! ## Value model

A stored value is a single token (Python `float` or `str`) or, when a line
carries several value tokens, the ordered list of them. -/

inductive Token where
  | num (q : ℚ)
  | str (s : String)
deriving DecidableEq

inductive Value where
  | tok (t : Token)
  | list (ts : List Token)
deriving DecidableEq

/-- The key/value store built by `_parse_acf` (Converter.py:22-46). -/
abbrev Store := List (String × Value)

/-- Converter.py:38-42 — try `float(v)`, otherwise keep the string. -/
def parseTokenL (cs : List Char) : Token :=
  match tryParseFloatL cs with
  | some q => .num q
  | none => .str (String.mk cs)

/-- Converter.py:45 — a single value is stored unwrapped, several as a list. -/
def mkValue (ts : List Token) : Value :=
  match ts with
  | [t] => .tok t
  | _ => .list ts

/-! ## PropertyStore construction: `_parse_acf` (Converter.py:22-46) -/

/-- Python `dict` assignment `data[key] = v`: overwrite in place (keeping the
key's original position) when the key exists, otherwise append. -/
def dictInsert (data : Store) (k : String) (v : Value) : Store :=
  if data.any (fun kv => kv.1 == k) then
    data.map (fun kv => if kv.1 == k then (k, v) else kv)
  else data ++ [(k, v)]

/-- Converter.py:27 — `line.startswith('P ')`: the literal character `P`
followed by one space character. -/
def startsWithPSpace : List Char → Bool
  | 'P' :: ' ' :: _ => true
  | _ => false

/-- Converter.py:26-45 — handling of one raw line of the input. -/
def parseLine (data : Store) (rawLine : List Char) : Store :=
  let line := pyStripL rawLine
  if line.isEmpty then data
  else if !startsWithPSpace line then data
  else
    match pySplitWsL line with
    | _ :: key :: v1 :: vs =>
        dictInsert data (String.mk key) (mkValue ((v1 :: vs).map parseTokenL))
    | _ => data

/-- Converter.py:22-46 — `_parse_acf`: strip the content, split into lines on
`'\n'`, fold every line into the store. -/
def parse_acf (content : String) : Store :=
  (splitOnCharL '\n' (pyStripL content.data)).foldl parseLine []

/-! ## Lookup: `get_value` (Converter.py:59-67) -/

/-- Python `str.endswith(suffix)`. -/
def strEndsWith (s suffix : String) : Bool :=
  suffix.data.isSuffixOf s.data

/-- Converter.py:59-67 — exact key first, then the first stored key (in
insertion order) ending with the suffix, else the default. -/
def get_value (data : Store) (key_suffix : String) (default : Value) : Value :=
  match data.find? (fun kv => kv.1 == key_suffix) with
  | some kv => kv.2
  | none =>
    match data.find? (fun kv => strEndsWith kv.1 key_suffix) with
    | some kv => kv.2
    | none => default

/-! ## Python coercions used by the converter -/

/-- Python `v == 0` for a stored value: numeric comparison for floats,
`False` for strings and lists (no exception). -/
def pyEq0 : Value → Bool
  | .tok (.num q) => q == 0
  | _ => false

/-- Python `v > 0` for a stored value: `TypeError` for strings and lists. -/
def pyGt0 : Value → Except String Bool
  | .tok (.num q) => .ok (decide (0 < q))
  | .tok (.str _) => .error "TypeError"
  | .list _ => .error "TypeError"

/-- Python `float(t)` on a single stored token. -/
def floatOfToken : Token → Except String ℚ
  | .num q => .ok q
  | .str s =>
    match tryParseFloatL s.data with
    | some q => .ok q
    | none => .error "ValueError"

/-- Converter.py:311-314 — value coercion in the point-cloud scan:
`float(val[0])` if the value is a list (`IndexError` on an empty list),
else `float(val)`. -/
def pyFloatScan : Value → Except String ℚ
  | .list [] => .error "IndexError"
  | .list (t :: _) => floatOfToken t
  | .tok t => floatOfToken t

/-- Python bare `float(val)` as used on the offset lookups
(Converter.py:367-369): `TypeError` when the value is a list. -/
def pyFloatBare : Value → Except String ℚ
  | .tok t => floatOfToken t
  | .list _ => .error "TypeError"

/-! ## The converter object (Converter.py:3-20) -/

structure AcfToSdfConverter where
  data : Store
  LB_TO_KG : ℚ := 453592 / 1000000
  FT_TO_M : ℚ := 3048 / 10000
  DEFAULT_INERTIA : ℚ := 1 / 10
  default_power_watt : ℚ := 400
  default_rotor_inertia : ℚ := 1 / 10000
  mass_lb : Value

/-- Converter.py:17-20 — mass resolution: primary key `acf/_m_empty`, then
(when that compares equal to `0`) the legacy key `_cgpt/0/_w_now`. -/
def resolveMass (data : Store) : Value :=
  let m := get_value data "acf/_m_empty" (.tok (.num 0))
  if pyEq0 m then get_value data "_cgpt/0/_w_now" (.tok (.num 0)) else m

/-- Converter.py:4-20 — `__init__`: parse the content and resolve the mass. -/
def mkConverter (content : String) : AcfToSdfConverter :=
  let d := parse_acf content
  { data := d, mass_lb := resolveMass d }

/-! ## CoordinateTransform: `convert_coords` (Converter.py:48-57) -/

def convert_coords (c : AcfToSdfConverter) (xp_x_lat xp_y_vert xp_z_long : ℚ) : ℚ × ℚ × ℚ :=
  (-(xp_z_long * c.FT_TO_M), -(xp_x_lat * c.FT_TO_M), xp_y_vert * c.FT_TO_M)

/-! ## Inertial record: `generate_inertial_xml` (Converter.py:69-93) -/

structure InertialRecord where
  mass : ℚ
  ixx : ℚ
  iyy : ℚ
  izz : ℚ
deriving DecidableEq

/-- Converter.py:69-93 — `generate_inertial_xml`.  In the source the
`return` statement (line 84) is indented inside the `else` branch of
`if self.mass_lb > 0`, so on the positive-mass branch the method body ends
without a `return` and Python returns `None` (modelled as `.ok none`); the
`<inertial>` record is produced only on the mass-not-found branch, with the
placeholder `mass_kg = 1.0`.  `self.mass_lb > 0` raises `TypeError` when the
resolved mass is a string or list. -/
def generate_inertial_xml (c : AcfToSdfConverter) : Except String (Option InertialRecord) :=
  let mass_kg : ℚ := 1
  match pyGt0 c.mass_lb with
  | .error e => .error e
  | .ok true => .ok none
  | .ok false =>
    let ixx := mass_kg * (5 / 100)
    .ok (some { mass := mass_kg, ixx := ixx, iyy := ixx, izz := ixx })

/-! ## PartAggregator: `generate_fuselage_collisions` (Converter.py:266-400)

The point-cloud scan (lines 275-326) and the emission loop (lines 336-398). -/

/-- Per-part sample buckets: the Python dict `{0: [], 1: [], 2: []}`
(Converter.py:318) keyed by axis. -/
structure Buckets where
  ax0 : List ℚ
  ax1 : List ℚ
  ax2 : List ℚ
deriving DecidableEq

def emptyBuckets : Buckets := { ax0 := [], ax1 := [], ax2 := [] }

def bucketsGet (b : Buckets) (axis : Nat) : List ℚ :=
  if axis == 0 then b.ax0 else if axis == 1 then b.ax1 else b.ax2

/-- Append into the axis bucket (only ever called with `axis < 3`). -/
def bucketsAppend (b : Buckets) (axis : Nat) (v : ℚ) : Buckets :=
  if axis == 0 then { b with ax0 := b.ax0 ++ [v] }
  else if axis == 1 then { b with ax1 := b.ax1 ++ [v] }
  else { b with ax2 := b.ax2 ++ [v] }

def geoMark : List Char := "_geo_xyz".data
def partMark : List Char := "_part/".data
def partSeg : List Char := "_part".data

/-- Outcome of processing one stored key inside the scan's `try` block
(Converter.py:277-326). -/
inductive KeyOutcome where
  /-- The key was filtered out, one of the `continue` branches fired, or an
  exception (`ValueError`/`IndexError` from the value coercion) was caught
  before the bucket dict was touched. -/
  | skip
  /-- The axis component was a digit `≥ 3`: the source first creates the
  part's bucket dict (line 317-318) and then raises `KeyError` on
  `parts_bounds[part_idx][axis]`, caught by the `except`; the freshly
  created (empty) entry survives, but no sample and no count. -/
  | entryOnly (idx : Nat)
  /-- A qualifying structural point: part index, axis `< 3` and value. -/
  | sample (idx : Nat) (axis : Nat) (v : ℚ)
deriving DecidableEq

/-- Converter.py:277-321 — the per-key portion of the scan. -/
def processKey (key : String) (val : Value) : KeyOutcome :=
  if !(listHasSub geoMark key.data && listHasSub partMark key.data) then .skip
  else
    let segments := splitOnCharL '/' key.data
    if segments.contains partSeg then
      let idx_tag := segments.findIdx (fun s => s == partSeg)
      if h : idx_tag + 1 < segments.length then
        if strDigitsL (segments.get ⟨idx_tag + 1, h⟩) then
          let part_idx := natOfDigits (segments.get ⟨idx_tag + 1, h⟩)
          let grid_coords := splitOnCharL ',' (segments.getLastD [])
          if grid_coords.length == 3 then
            let axis_str := grid_coords.getD 2 []
            if strDigitsL axis_str then
              let axis := natOfDigits axis_str
              match pyFloatScan val with
              | .error _ => .skip
              | .ok v => if axis < 3 then .sample part_idx axis v else .entryOnly part_idx
            else .skip
          else .skip
        else .skip
      else .skip
    else .skip

/-- State of the scan: the `parts_bounds` dict (insertion-ordered, unique
part indices) and `count_points`. -/
structure ScanState where
  bounds : List (Nat × Buckets)
  count : Nat
deriving DecidableEq

/-- Converter.py:317-318 — `if part_idx not in parts_bounds: parts_bounds[part_idx] = {0: [], 1: [], 2: []}`. -/
def ensureEntry (bounds : List (Nat × Buckets)) (idx : Nat) : List (Nat × Buckets) :=
  if bounds.any (fun e => e.1 == idx) then bounds else bounds ++ [(idx, emptyBuckets)]

/-- Converter.py:320 — `parts_bounds[part_idx][axis].append(val_float)`. -/
def appendSample (bounds : List (Nat × Buckets)) (idx axis : Nat) (v : ℚ) : List (Nat × Buckets) :=
  bounds.map (fun e => if e.1 == idx then (e.1, bucketsAppend e.2 axis v) else e)

/-- One iteration of the scan loop for a stored key/value pair. -/
def scanStep (st : ScanState) (kv : String × Value) : ScanState :=
  match processKey kv.1 kv.2 with
  | .skip => st
  | .entryOnly idx => { st with bounds := ensureEntry st.bounds idx }
  | .sample idx axis v =>
    { bounds := appendSample (ensureEntry st.bounds idx) idx axis v, count := st.count + 1 }

/-- Converter.py:275-326 — the full scan over the store. -/
def scanParts (data : Store) : ScanState :=
  data.foldl scanStep { bounds := [], count := 0 }

/-- One emitted collision/visual record (the `<collision>`/`<visual>` pair of
Converter.py:389-398): part index, Gazebo pose, box size in metres. -/
structure AggregatedPart where
  idx : Nat
  pos : ℚ × ℚ × ℚ
  size : ℚ × ℚ × ℚ
deriving DecidableEq

/-- Converter.py:380-382 — the coordinate conversion inlined in the emission
loop, as a function of the composed (offset + center) source-frame triple. -/
def fuselagePose (c : AcfToSdfConverter) (tot_long tot_lat tot_vert : ℚ) : ℚ × ℚ × ℚ :=
  (-(tot_long * c.FT_TO_M), -(tot_lat * c.FT_TO_M), tot_vert * c.FT_TO_M)

/-- Python `min(l)` on a nonempty list (the `[]` case never arises: the
emission loop guards all three buckets for nonemptiness first). -/
def listMin : List ℚ → ℚ
  | [] => 0
  | x :: xs => xs.foldl min x

/-- Python `max(l)` on a nonempty list. -/
def listMax : List ℚ → ℚ
  | [] => 0
  | x :: xs => xs.foldl max x

/-- The f-string key `_part/{idx}/_part_x` (and `_y`, `_z`) of
Converter.py:367-369. -/
def offsetKey (idx : Nat) (ax : String) : String :=
  "_part/" ++ Nat.repr idx ++ "/_part_" ++ ax

/-- Converter.py:336-398 — one iteration of the emission loop: `none` when the
part is skipped (missing axis coverage or the degeneracy filter), `.error`
when the uncaught `float(...)` on an offset raises. -/
def emitPart (c : AcfToSdfConverter) (idx : Nat) (b : Buckets) : Except String (Option AggregatedPart) :=
  if b.ax0.isEmpty || b.ax1.isEmpty || b.ax2.isEmpty then .ok none
  else
    let min_l := listMin b.ax0
    let max_l := listMax b.ax0
    let min_w := listMin b.ax1
    let max_w := listMax b.ax1
    let min_h := listMin b.ax2
    let max_h := listMax b.ax2
    let size_l := max_l - min_l
    let size_w := max_w - min_w
    let size_h := max_h - min_h
    if size_l < 1 / 100 ∧ size_w < 1 / 100 then .ok none
    else
      let center_l := (min_l + max_l) / 2
      let center_w := (min_w + max_w) / 2
      let center_h := (min_h + max_h) / 2
      match pyFloatBare (get_value c.data (offsetKey idx "x") (.tok (.num 0))) with
      | .error e => .error e
      | .ok off_x =>
      match pyFloatBare (get_value c.data (offsetKey idx "y") (.tok (.num 0))) with
      | .error e => .error e
      | .ok off_y =>
      match pyFloatBare (get_value c.data (offsetKey idx "z") (.tok (.num 0))) with
      | .error e => .error e
      | .ok off_z =>
        let tot_long := off_z + center_l
        let tot_lat := off_x + center_w
        let tot_vert := off_y + center_h
        let dim_x := max (size_l * c.FT_TO_M) (5 / 100)
        let dim_y := max (size_w * c.FT_TO_M) (5 / 100)
        let dim_z := max (size_h * c.FT_TO_M) (5 / 100)
        .ok (some { idx := idx
                    pos := fuselagePose c tot_long tot_lat tot_vert
                    size := (dim_x, dim_y, dim_z) })

/-- The emission loop over the scanned bounds, in dict iteration order. -/
def emitParts (c : AcfToSdfConverter) : List (Nat × Buckets) → Except String (List AggregatedPart)
  | [] => .ok []
  | (idx, b) :: rest =>
    match emitPart c idx b with
    | .error e => .error e
    | .ok none => emitParts c rest
    | .ok (some p) =>
      match emitParts c rest with
      | .error e => .error e
      | .ok ps => .ok (p :: ps)

/-- Converter.py:266-400 — `generate_fuselage_collisions`, abstracted from the
XML text to the sequence of emitted part records.  An empty `parts_bounds`
returns `""` in the source (line 328-330), i.e. no parts. -/
def generate_fuselage_collisions (c : AcfToSdfConverter) : Except String (List AggregatedPart) :=
  let st := scanParts c.data
  if st.bounds.isEmpty then .ok []
  else emitParts c st.bounds

/-! ## Definitions used to state the claims -/

/-- A converter whose length-unit ratio attribute has been set to `1`
(Python instance attributes are mutable), for the unit-ratio instance of the
coordinate-transform claim. -/
def unitConv : AcfToSdfConverter :=
  { data := [], FT_TO_M := 1, mass_lb := .tok (.num 0) }

/-- The line-qualification condition exactly as the claim states it: after
trimming whitespace the line begins with the literal marker token `P`
followed by whitespace (any Python whitespace character), and carries at
least 2 tokens after the marker.  When the line starts with `P` plus a
whitespace character, the first whitespace-token is exactly `P`, so having
at least 2 tokens after the marker is having at least 3 tokens in all. -/
def claimLineQualifies (line : String) : Bool :=
  match pyStripL line.data with
  | 'P' :: c :: _ => pyIsSpace c && decide (3 ≤ (pySplitWsL (pyStripL line.data)).length)
  | _ => false

/-- The amended qualification condition: after trimming whitespace the line
begins with the literal character `P` followed by one space character
(exactly `U+0020`, which is what `startswith('P ')` tests — a tab after the
`P` does not qualify), and carries at least 2 tokens after the marker. -/
def amendedLineOK (line : String) : Bool :=
  startsWithPSpace (pyStripL line.data) &&
    decide (3 ≤ (pySplitWsL (pyStripL line.data)).length)

/-- The claim's notion of suffix matching, stated independently of
`List.isSuffixOf`: the key's trailing substring of the suffix's length
exactly equals the suffix. -/
def trailingMatch (key suffix : String) : Prop :=
  suffix.data.length ≤ key.data.length ∧
    key.data.drop (key.data.length - suffix.data.length) = suffix.data

instance (key suffix : String) : Decidable (trailingMatch key suffix) := by
  unfold trailingMatch
  exact instDecidableAnd

/-- The samples bucket held for a part index and axis after the scan
(empty when the part index has no entry). -/
def axisSamples (bounds : List (Nat × Buckets)) (idx axis : Nat) : List ℚ :=
  match bounds.find? (fun e => e.1 == idx) with
  | some e => bucketsGet e.2 axis
  | none => []

/-- The keys whose processing succeeds end-to-end in the scan: part index,
axis (`< 3`) and coerced value.  Every other key contributes no sample. -/
def goodPoint? (kv : String × Value) : Option (Nat × Nat × ℚ) :=
  match processKey kv.1 kv.2 with
  | .sample i a v => some (i, a, v)
  | _ => none

/-- The spec's minimal part-aggregation input: part 0 with axis-0 samples
`{0, 10}`, axis-1 samples `{0, 2}`, axis-2 samples `{0, 1}` and no offset
keys. -/
def c2content : String :=
  "P _part/0/_geo_xyz/0,0,0 0.0\nP _part/0/_geo_xyz/1,0,0 10.0\nP _part/0/_geo_xyz/0,0,1 0.0\nP _part/0/_geo_xyz/1,0,1 2.0\nP _part/0/_geo_xyz/0,0,2 0.0\nP _part/0/_geo_xyz/1,0,2 1.0"

/-- A store whose only part (index 3) has axis-0 size `0.001` and axis-1
size `0.001` but a large axis-2 extent: the degeneracy filter drops it. -/
def degenContent : String :=
  "P _part/3/_geo_xyz/0,0,0 0.0\nP _part/3/_geo_xyz/1,0,0 0.001\nP _part/3/_geo_xyz/0,0,1 0.0\nP _part/3/_geo_xyz/1,0,1 0.001\nP _part/3/_geo_xyz/0,0,2 0.0\nP _part/3/_geo_xyz/1,0,2 50.0"

/-- A store whose only part (index 1) has samples on axes 0 and 1 but none
on axis 2. -/
def missingAxisContent : String :=
  "P _part/1/_geo_xyz/0,0,0 0.0\nP _part/1/_geo_xyz/1,0,0 10.0\nP _part/1/_geo_xyz/0,0,1 0.0\nP _part/1/_geo_xyz/1,0,1 2.0"

/-! ## General lemmas about the string primitives -/

theorem dropWhile_head_not (p : Char → Bool) (l : List Char) (a : Char) (t : List Char)
    (h : List.dropWhile p l = a :: t) : p a = false := by
  induction l with
  | nil => simp at h
  | cons x xs ih =>
    rw [List.dropWhile_cons] at h
    by_cases hx : p x = true
    · rw [if_pos hx] at h
      exact ih h
    · rw [if_neg hx] at h
      cases h
      simpa using hx

theorem pyStripL_eq_rdrop (l : List Char) :
    pyStripL l = List.rdropWhile pyIsSpace (List.dropWhile pyIsSpace l) := rfl

theorem pyStripL_idem (l : List Char) : pyStripL (pyStripL l) = pyStripL l := by
  have key : List.dropWhile pyIsSpace (pyStripL l) = pyStripL l := by
    rcases hs : pyStripL l with _ | ⟨a, t⟩
    · rfl
    · have hpre : (a :: t) <+: List.dropWhile pyIsSpace l := by
        rw [← hs, pyStripL_eq_rdrop]
        exact List.rdropWhile_prefix _ _
      obtain ⟨r, hr⟩ := hpre
      have hhead : List.dropWhile pyIsSpace l = a :: (t ++ r) := by
        rw [← hr]; rfl
      have hna := dropWhile_head_not pyIsSpace l a (t ++ r) hhead
      rw [List.dropWhile_cons, hna]
      simp
  show List.rdropWhile pyIsSpace (List.dropWhile pyIsSpace (pyStripL l)) = pyStripL l
  rw [key, pyStripL_eq_rdrop, List.rdropWhile_idempotent]

theorem pyStripL_sublist (l : List Char) : List.Sublist (pyStripL l) l := by
  rw [pyStripL_eq_rdrop]
  exact ((List.rdropWhile_prefix _ _).sublist).trans ((List.dropWhile_suffix _).sublist)

theorem splitOnCharAux_no_sep (sep : Char) (l : List Char) (acc : List Char)
    (h : sep ∉ l) : splitOnCharAux sep l acc = [acc.reverse ++ l] := by
  induction l generalizing acc with
  | nil => simp [splitOnCharAux]
  | cons c cs ih =>
    have hc : (c == sep) = false := by
      simp only [List.mem_cons, not_or] at h
      simp only [beq_eq_false_iff_ne, ne_eq]
      exact fun e => h.1 e.symm
    have hcs : sep ∉ cs := by
      simp only [List.mem_cons, not_or] at h
      exact h.2
    rw [splitOnCharAux, hc]
    simp only [Bool.false_eq_true, if_false, ih _ hcs]
    simp

/-- Every token produced by Python `str.split()` is nonempty. -/
theorem splitWsAux_tok_ne_nil (l : List Char) (acc : List Char) (t : List Char)
    (ht : t ∈ splitWsAux l acc) : t ≠ [] := by
  induction l generalizing acc with
  | nil =>
    rw [splitWsAux] at ht
    by_cases ha : acc.isEmpty
    · simp [ha] at ht
    · rw [if_neg ha] at ht
      simp only [List.mem_singleton] at ht
      subst ht
      simp only [ne_eq, List.reverse_eq_nil_iff]
      intro h
      rw [h] at ha
      exact ha rfl
  | cons c cs ih =>
    rw [splitWsAux] at ht
    by_cases hsp : pyIsSpace c = true
    · rw [if_pos hsp] at ht
      by_cases ha : acc.isEmpty
      · rw [if_pos ha] at ht
        exact ih [] ht
      · rw [if_neg ha] at ht
        rcases List.mem_cons.mp ht with h1 | h2
        · subst h1
          simp only [ne_eq, List.reverse_eq_nil_iff]
          intro h
          rw [h] at ha
          exact ha rfl
        · exact ih [] h2
    · rw [if_neg hsp] at ht
      exact ih (c :: acc) ht

theorem dictInsert_ne_nil (data : Store) (k : String) (v : Value) :
    dictInsert data k v ≠ [] := by
  unfold dictInsert
  by_cases h : data.any (fun kv => kv.1 == k)
  · rw [if_pos h]
    intro hc
    rcases data with _ | ⟨a, t⟩
    · simp at h
    · simp at hc
  · rw [if_neg h]
    simp

/-- Keys of `dictInsert` output satisfy a predicate when the old keys and
the inserted key do. -/
theorem dictInsert_keys (data : Store) (k : String) (v : Value)
    (P : String → Prop) (hdata : ∀ kv ∈ data, P kv.1) (hk : P k) :
    ∀ kv ∈ dictInsert data k v, P kv.1 := by
  intro kv hkv
  unfold dictInsert at hkv
  by_cases h : data.any (fun e => e.1 == k)
  · rw [if_pos h] at hkv
    rcases List.mem_map.mp hkv with ⟨e, he, hee⟩
    by_cases hek : e.1 == k
    · rw [if_pos hek] at hee
      rw [← hee]
      exact hk
    · rw [if_neg hek] at hee
      rw [← hee]
      exact hdata e he
  · rw [if_neg h] at hkv
    rcases List.mem_append.mp hkv with h1 | h2
    · exact hdata kv h1
    · simp only [List.mem_singleton] at h2
      rw [h2]
      exact hk

/-- Every key in a parsed store is a nonempty string. -/
theorem parse_acf_keys_ne_empty (content : String) :
    ∀ kv ∈ parse_acf content, kv.1 ≠ "" := by
  unfold parse_acf
  generalize splitOnCharL '\n' (pyStripL content.data) = lines
  have main : ∀ (ls : List (List Char)) (d : Store), (∀ kv ∈ d, kv.1 ≠ "") →
      ∀ kv ∈ ls.foldl parseLine d, kv.1 ≠ "" := by
    intro ls
    induction ls with
    | nil => intro d hd; simpa using hd
    | cons line rest ih =>
      intro d hd
      rw [List.foldl_cons]
      apply ih
      intro kv hkv
      unfold parseLine at hkv
      by_cases h1 : (pyStripL line).isEmpty
      · rw [if_pos h1] at hkv
        exact hd kv hkv
      · rw [if_neg h1] at hkv
        by_cases h2 : !startsWithPSpace (pyStripL line)
        · rw [if_pos h2] at hkv
          exact hd kv hkv
        · rw [if_neg h2] at hkv
          rcases hsp : pySplitWsL (pyStripL line) with _ | ⟨t0, _ | ⟨t1, _ | ⟨t2, ts⟩⟩⟩ <;>
            rw [hsp] at hkv
          · exact hd kv hkv
          · exact hd kv hkv
          · exact hd kv hkv
          · refine dictInsert_keys d _ _ (fun s => s ≠ "") hd ?_ kv hkv
            have ht1 : t1 ≠ [] := by
              refine splitWsAux_tok_ne_nil (pyStripL line) [] t1 ?_
              rw [← pySplitWsL, hsp]
              simp
            intro hc
            apply ht1
            simpa using congrArg String.data hc
  exact main lines [] (by simp)

/-- A `'\n'`-free content is a single line: `parse_acf` reduces to one
`parseLine` step. -/
theorem parse_acf_single_line (line : String) (h : '\n' ∉ line.data) :
    parse_acf line = parseLine [] (pyStripL line.data) := by
  unfold parse_acf
  have h2 : '\n' ∉ pyStripL line.data := fun hm => h ((pyStripL_sublist line.data).subset hm)
  rw [splitOnCharL, splitOnCharAux_no_sep _ _ _ h2]
  simp

/-! ## Claim C1 -/

/-- C1 (code bug): the converter does query the primary mass key and then
the legacy fallback key (`mass_lb` resolves to `27` from the legacy key and
to the primary key's value when that is present), and the both-absent path
does produce the placeholder record with mass `1.0`; but when the resolved
mass is positive, `generate_inertial_xml` produces no inertial record at all
(Python returns `None`) because its `return` is indented inside the
mass-not-found `else` branch — the record never carries `mass * LB_TO_KG`. -/
theorem c1_mass_resolution_and_inertial :
    (mkConverter "P _cgpt/0/_w_now 27.0").mass_lb = Value.tok (.num 27) ∧
    generate_inertial_xml (mkConverter "P _cgpt/0/_w_now 27.0") = .ok none ∧
    (mkConverter "P acf/_m_empty 10.0\nP _cgpt/0/_w_now 27.0").mass_lb = Value.tok (.num 10) ∧
    generate_inertial_xml (mkConverter "") =
      .ok (some { mass := 1, ixx := 1 / 20, iyy := 1 / 20, izz := 1 / 20 }) := by
  refine ⟨?_, ?_, ?_, ?_⟩ <;>
    simp +decide [mkConverter, parse_acf, parseLine, pyStripL, pyIsSpace, splitOnCharL,
      splitOnCharAux, pySplitWsL, splitWsAux, startsWithPSpace, dictInsert, mkValue,
      parseTokenL, tryParseFloatL, readDigits, natOfDigits, resolveMass, get_value,
      pyEq0, strEndsWith, generate_inertial_xml, pyGt0]
  norm_num

/-! ## Claim C4 -/

/-- C4: `convert_coords` maps `(lateral, vertical, longitudinal)` to
`(-(longitudinal * ratio), -(lateral * ratio), vertical * ratio)` for every
input triple and every ratio attribute; with a unit length ratio,
`convert(1,2,3) = (-3,-1,2)`. -/
theorem c4_convert_coords_formula :
    (∀ (c : AcfToSdfConverter) (lat vert long : ℚ),
        convert_coords c lat vert long =
          (-(long * c.FT_TO_M), -(lat * c.FT_TO_M), vert * c.FT_TO_M)) ∧
    convert_coords unitConv 1 2 3 = (-3, -1, 2) := by
  constructor
  · intro c lat vert long
    rfl
  · norm_num [convert_coords, unitConv]

/-! ## Claim C5 -/

/-- C5: the coordinate conversion inlined in the fuselage emission loop
(Converter.py:380-382) applied to the composed (offset + center) triple
agrees with `convert_coords` applied to that triple's lateral, vertical and
longitudinal components, for every converter and every input triple. -/
theorem c5_transform_uniformity :
    ∀ (c : AcfToSdfConverter) (lat vert long : ℚ),
      fuselagePose c long lat vert = convert_coords c lat vert long := by
  intro c lat vert long
  rfl

/-! ## Claim C9 -/

/-- C9 counterexample: the line `"P\tk 1"` begins (after trimming) with the
marker token `P` followed by whitespace (a tab) and carries 2 tokens after
the marker, so the claim as stated says it contributes to the store; but
`startswith('P ')` tests for a space character specifically, so the source
skips the line and the parsed store is empty. -/
theorem c9_whitespace_counterexample :
    claimLineQualifies "P\tk 1" = true ∧ parse_acf "P\tk 1" = [] := by
  constructor
  · decide
  · decide

/-- C9 (amended): a `'\n'`-free line contributes to the store iff, after
trimming whitespace, it begins with the literal character `P` followed by a
space character (exactly `U+0020`; other whitespace such as a tab does not
qualify) and carries at least 2 tokens after the marker. -/
theorem c9_line_qualification (line : String) (h : '\n' ∉ line.data) :
    parse_acf line ≠ [] ↔ amendedLineOK line = true := by
  rw [parse_acf_single_line line h]
  unfold parseLine amendedLineOK
  rw [pyStripL_idem]
  by_cases h1 : (pyStripL line.data).isEmpty = true
  · have hsw : startsWithPSpace (pyStripL line.data) = false := by
      rcases he : pyStripL line.data with _ | ⟨a, t⟩
      · rfl
      · rw [he] at h1; simp at h1
    rw [if_pos h1, hsw]
    simp
  · rw [if_neg h1]
    by_cases h2 : startsWithPSpace (pyStripL line.data) = true
    · rw [if_neg (by simp [h2]), h2]
      rcases hsp : pySplitWsL (pyStripL line.data) with _ | ⟨t0, _ | ⟨t1, _ | ⟨t2, ts⟩⟩⟩ <;>
        simp [hsp, dictInsert_ne_nil]
    · rw [if_pos (by simp [Bool.not_eq_true] at h2 ⊢; exact h2)]
      have h2f : startsWithPSpace (pyStripL line.data) = false := by
        simpa [Bool.not_eq_true] using h2
      rw [h2f]
      simp

/-- C9 witness for the amended statement: the line `"P k 1"` qualifies and
does contribute an entry to the store. -/
theorem c9_line_qualification_witness :
    ('\n' ∉ ("P k 1" : String).data) ∧ parse_acf "P k 1" ≠ [] := by
  refine ⟨by decide, ?_⟩
  exact (c9_line_qualification "P k 1" (by decide)).mpr (by decide)

/-! ## Lemmas about `find?` and suffix matching, towards the lookup claims -/

theorem strEndsWith_iff (k s : String) : strEndsWith k s = true ↔ trailingMatch k s := by
  unfold strEndsWith trailingMatch
  rw [List.isSuffixOf_iff_suffix]
  constructor
  · intro h
    exact ⟨h.length_le, (List.suffix_iff_eq_drop.mp h).symm⟩
  · intro h
    rw [List.suffix_iff_eq_drop]
    exact h.2.symm

/-- Every string's trailing substring of its own length is itself. -/
theorem trailingMatch_self (s : String) : trailingMatch s s := by
  refine ⟨le_refl _, ?_⟩
  simp

/-- `find?` returns the element at the first index satisfying the
predicate. -/
theorem find?_first_index {α : Type} (p : α → Bool) (l : List α) (i : Nat) (hi : i < l.length)
    (hp : p (l.get ⟨i, hi⟩) = true)
    (hb : ∀ j (hj : j < l.length), j < i → p (l.get ⟨j, hj⟩) = false) :
    l.find? p = some (l.get ⟨i, hi⟩) := by
  induction l generalizing i with
  | nil => simp at hi
  | cons a t ih =>
    rw [List.find?_cons]
    cases i with
    | zero =>
      rw [show p a = true from hp]
      rfl
    | succ n =>
      have ha : p a = false := hb 0 (Nat.succ_pos _) (Nat.succ_pos _)
      rw [ha]
      have hn : n < t.length := Nat.lt_of_succ_lt_succ hi
      have hp2 : p (t.get ⟨n, hn⟩) = true := hp
      refine ih n hn hp2 ?_
      intro j hj hji
      exact hb (j + 1) (Nat.succ_lt_succ hj) (Nat.succ_lt_succ hji)

/-! ## Claim C3 -/

/-- C3: the `get_value` lookup contract.  (1) An exact stored key's value is
returned (keys are unique in a parsed store, matching the Python dict).
(2) Otherwise, the value of the first stored key in insertion order whose
trailing substring exactly equals the suffix is returned.  (3) When no key
matches, the supplied default is returned.  (4) The spec's concrete
instance: a store holding `a/b/c ↦ 5` answers 5 to `b/c`, `c` and `a/b/c`,
and 9 to `get("z", default=9)`. -/
theorem c3_get_value_contract :
    (∀ (data : Store) (suffix : String) (d : Value) (i : Nat) (hi : i < data.length),
        (data.map Prod.fst).Nodup → (data.get ⟨i, hi⟩).1 = suffix →
        get_value data suffix d = (data.get ⟨i, hi⟩).2) ∧
    (∀ (data : Store) (suffix : String) (d : Value) (i : Nat) (hi : i < data.length),
        (∀ kv ∈ data, kv.1 ≠ suffix) →
        trailingMatch (data.get ⟨i, hi⟩).1 suffix →
        (∀ j (hj : j < data.length), j < i → ¬ trailingMatch (data.get ⟨j, hj⟩).1 suffix) →
        get_value data suffix d = (data.get ⟨i, hi⟩).2) ∧
    (∀ (data : Store) (suffix : String) (d : Value),
        (∀ kv ∈ data, ¬ trailingMatch kv.1 suffix) →
        get_value data suffix d = d) ∧
    (get_value [("a/b/c", Value.tok (.num 5))] "b/c" (.tok (.num 9)) = .tok (.num 5) ∧
      get_value [("a/b/c", Value.tok (.num 5))] "c" (.tok (.num 9)) = .tok (.num 5) ∧
      get_value [("a/b/c", Value.tok (.num 5))] "a/b/c" (.tok (.num 9)) = .tok (.num 5) ∧
      get_value [("a/b/c", Value.tok (.num 5))] "z" (.tok (.num 9)) = .tok (.num 9)) := by
  refine ⟨?_, ?_, ?_, rfl, rfl, rfl, rfl⟩
  · intro data suffix d i hi hnd hkey
    have hfind : data.find? (fun kv => kv.1 == suffix) = some (data.get ⟨i, hi⟩) := by
      refine find?_first_index _ data i hi (by simpa using hkey) ?_
      intro j hj hji
      have hne : (data.get ⟨j, hj⟩).1 ≠ (data.get ⟨i, hi⟩).1 := by
        intro he
        have h1 : (data.map Prod.fst).get ⟨j, by simpa using hj⟩ =
            (data.map Prod.fst).get ⟨i, by simpa using hi⟩ := by
          simpa [List.get_eq_getElem] using he
        have := (hnd.get_inj_iff).mp h1
        simp only [Fin.mk.injEq] at this
        omega
      simp only [beq_eq_false_iff_ne, ne_eq]
      rw [hkey] at hne
      exact hne
    unfold get_value
    rw [hfind]
  · intro data suffix d i hi hnoexact htr hb
    have hfind1 : data.find? (fun kv => kv.1 == suffix) = none := by
      rw [List.find?_eq_none]
      intro x hx
      simpa using hnoexact x hx
    have hfind2 : data.find? (fun kv => strEndsWith kv.1 suffix) = some (data.get ⟨i, hi⟩) := by
      refine find?_first_index _ data i hi ((strEndsWith_iff _ _).mpr htr) ?_
      intro j hj hji
      have := hb j hj hji
      rcases hc : strEndsWith (data.get ⟨j, hj⟩).1 suffix
      · rfl
      · exact absurd ((strEndsWith_iff _ _).mp hc) this
    unfold get_value
    rw [hfind1, hfind2]
  · intro data suffix d hno
    have hfind1 : data.find? (fun kv => kv.1 == suffix) = none := by
      rw [List.find?_eq_none]
      intro x hx
      simp only [beq_iff_eq]
      intro he
      exact hno x hx (he ▸ trailingMatch_self suffix)
    have hfind2 : data.find? (fun kv => strEndsWith kv.1 suffix) = none := by
      rw [List.find?_eq_none]
      intro x hx
      simp only [Bool.not_eq_true]
      rcases hc : strEndsWith x.1 suffix
      · rfl
      · exact absurd ((strEndsWith_iff _ _).mp hc) (hno x hx)
    unfold get_value
    rw [hfind1, hfind2]

/-- C3 witness: the fallback clause applied to a two-entry store where only
the second key ends with the queried suffix. -/
theorem c3_get_value_witness :
    get_value [("x/k", Value.tok (.num 1)), ("a/b/c", Value.tok (.num 5))] "b/c"
      (.tok (.num 9)) = Value.tok (.num 5) := by
  exact c3_get_value_contract.2.1 [("x/k", Value.tok (.num 1)), ("a/b/c", Value.tok (.num 5))]
    "b/c" (.tok (.num 9)) 1 (by norm_num) (by decide) (by decide)
    (by decide)

/-! ## Claim C10 -/

/-- C10: for every parsed store, `get_value` with the empty suffix returns
the value of the first stored entry (every key's trailing substring matches
the empty suffix, and no parsed key is itself empty); the default is
returned only when the store is empty. -/
theorem c10_empty_suffix_lookup :
    (∀ (content : String) (d : Value) (k : String) (v : Value) (rest : Store),
        parse_acf content = (k, v) :: rest →
        get_value (parse_acf content) "" d = v) ∧
    (∀ d : Value, get_value [] "" d = d) := by
  constructor
  · intro content d k v rest h
    have hkeys := parse_acf_keys_ne_empty content
    rw [h] at hkeys ⊢
    have hfind1 : ((k, v) :: rest).find? (fun kv => kv.1 == "") = none := by
      rw [List.find?_eq_none]
      intro x hx
      simpa using hkeys x hx
    have hez : strEndsWith k "" = true := by
      unfold strEndsWith
      rw [List.isSuffixOf_iff_suffix]
      exact List.nil_suffix
    have hfind2 : ((k, v) :: rest).find? (fun kv => strEndsWith kv.1 "") = some (k, v) :=
      List.find?_cons_of_pos rest hez
    unfold get_value
    rw [hfind1, hfind2]
  · intro d
    rfl

/-- C10 witness: a one-entry parsed store answers its first value to the
empty suffix. -/
theorem c10_empty_suffix_witness :
    get_value (parse_acf "P a/b zz") "" (.tok (.num 9)) = Value.tok (.str "zz") := by
  exact c10_empty_suffix_lookup.1 "P a/b zz" (.tok (.num 9)) "a/b" (.tok (.str "zz")) []
    (by decide)

/-! ## Lemmas about the fuselage scan and emission -/

/-- Full inversion of a successful emission: the record's fields in terms of
the bucket min/max, the offsets and the pose formula. -/
theorem emitPart_ok_some (c : AcfToSdfConverter) (idx : Nat) (b : Buckets) (p : AggregatedPart)
    (h : emitPart c idx b = .ok (some p)) :
    p.idx = idx ∧ b.ax0 ≠ [] ∧ b.ax1 ≠ [] ∧ b.ax2 ≠ [] ∧
    ¬(listMax b.ax0 - listMin b.ax0 < 1 / 100 ∧ listMax b.ax1 - listMin b.ax1 < 1 / 100) ∧
    p.size = (max ((listMax b.ax0 - listMin b.ax0) * c.FT_TO_M) (5 / 100),
              max ((listMax b.ax1 - listMin b.ax1) * c.FT_TO_M) (5 / 100),
              max ((listMax b.ax2 - listMin b.ax2) * c.FT_TO_M) (5 / 100)) ∧
    ∃ off_x off_y off_z : ℚ,
      pyFloatBare (get_value c.data (offsetKey idx "x") (.tok (.num 0))) = .ok off_x ∧
      pyFloatBare (get_value c.data (offsetKey idx "y") (.tok (.num 0))) = .ok off_y ∧
      pyFloatBare (get_value c.data (offsetKey idx "z") (.tok (.num 0))) = .ok off_z ∧
      p.pos = fuselagePose c (off_z + (listMin b.ax0 + listMax b.ax0) / 2)
        (off_x + (listMin b.ax1 + listMax b.ax1) / 2)
        (off_y + (listMin b.ax2 + listMax b.ax2) / 2) := by
  unfold emitPart at h
  by_cases hE : (b.ax0.isEmpty || b.ax1.isEmpty || b.ax2.isEmpty) = true
  · rw [if_pos hE] at h
    simp at h
  · rw [if_neg hE] at h
    simp only at h
    by_cases hdeg : listMax b.ax0 - listMin b.ax0 < 1 / 100 ∧
        listMax b.ax1 - listMin b.ax1 < 1 / 100
    · rw [if_pos hdeg] at h
      simp at h
    · rw [if_neg hdeg] at h
      rcases hx : pyFloatBare (get_value c.data (offsetKey idx "x") (.tok (.num 0))) with e | off_x
      · rw [hx] at h
        simp at h
      · rw [hx] at h
        simp only at h
        rcases hy : pyFloatBare (get_value c.data (offsetKey idx "y") (.tok (.num 0))) with e | off_y
        · rw [hy] at h
          simp at h
        · rw [hy] at h
          simp only at h
          rcases hz : pyFloatBare (get_value c.data (offsetKey idx "z") (.tok (.num 0))) with e | off_z
          · rw [hz] at h
            simp at h
          · rw [hz] at h
            simp only [Except.ok.injEq, Option.some.injEq] at h
            subst h
            simp only [Bool.or_eq_true, List.isEmpty_iff, not_or] at hE
            refine ⟨rfl, ?_, ?_, ?_, hdeg, rfl, off_x, off_y, off_z, rfl, rfl, rfl, rfl⟩ <;>
              tauto

/-- Facts about the emission fold: at most one record per scanned entry, and
every emitted record arises from a successful `emitPart` on some entry. -/
theorem emitParts_ok (c : AcfToSdfConverter) (l : List (Nat × Buckets))
    (parts : List AggregatedPart) (h : emitParts c l = .ok parts) :
    parts.length ≤ l.length ∧
    ∀ p ∈ parts, ∃ b, (p.idx, b) ∈ l ∧ emitPart c p.idx b = .ok (some p) := by
  induction l generalizing parts with
  | nil =>
    unfold emitParts at h
    simp only [Except.ok.injEq] at h
    subst h
    simp
  | cons e rest ih =>
    rcases e with ⟨idx, b⟩
    unfold emitParts at h
    split at h
    · exact absurd h (by simp)
    · rename_i hnone
      rcases ih parts h with ⟨h1, h2⟩
      refine ⟨h1.trans (Nat.le_succ _), ?_⟩
      intro p hp
      rcases h2 p hp with ⟨b', hb1, hb2⟩
      exact ⟨b', List.mem_cons_of_mem _ hb1, hb2⟩
    · rename_i p0 hsome
      split at h
      · exact absurd h (by simp)
      · rename_i ps hps
        simp only [Except.ok.injEq] at h
        subst h
        rcases ih ps hps with ⟨h1, h2⟩
        refine ⟨Nat.succ_le_succ h1, ?_⟩
        intro p hp
        rcases List.mem_cons.mp hp with h3 | h3
        · subst h3
          have hidx := (emitPart_ok_some c idx b p hsome).1
          exact ⟨b, by rw [hidx]; exact List.mem_cons_self _ _, by rw [hidx]; exact hsome⟩
        · rcases h2 p h3 with ⟨b', hb1, hb2⟩
          exact ⟨b', List.mem_cons_of_mem _ hb1, hb2⟩

/-- In an association list with pairwise-distinct keys, a key determines its
buckets. -/
theorem nodup_assoc_unique {l : List (Nat × Buckets)} (h : (l.map Prod.fst).Nodup)
    {i : Nat} {b b' : Buckets} (h1 : (i, b) ∈ l) (h2 : (i, b') ∈ l) : b = b' := by
  induction l with
  | nil => simp at h1
  | cons e rest ih =>
    simp only [List.map_cons, List.nodup_cons] at h
    rcases List.mem_cons.mp h1 with hh1 | hh1 <;> rcases List.mem_cons.mp h2 with hh2 | hh2
    · rw [← hh1] at hh2
      exact (Prod.mk.injEq _ _ _ _ ▸ hh2.symm).2
    · exfalso
      apply h.1
      rw [← hh1]
      simpa using List.mem_map_of_mem Prod.fst hh2
    · exfalso
      apply h.1
      rw [← hh2]
      simpa using List.mem_map_of_mem Prod.fst hh1
    · exact ih h.2 hh1 hh2

/-- `appendSample` does not change the keys. -/
theorem appendSample_keys (bounds : List (Nat × Buckets)) (idx axis : Nat) (v : ℚ) :
    (appendSample bounds idx axis v).map Prod.fst = bounds.map Prod.fst := by
  unfold appendSample
  rw [List.map_map]
  apply List.map_congr_left
  intro e _
  show (if e.1 == idx then (e.1, bucketsAppend e.2 axis v) else e).1 = e.1
  split
  · rfl
  · rfl

/-- `ensureEntry` preserves pairwise-distinct keys. -/
theorem ensureEntry_keys_nodup (bounds : List (Nat × Buckets)) (idx : Nat)
    (h : (bounds.map Prod.fst).Nodup) :
    ((ensureEntry bounds idx).map Prod.fst).Nodup := by
  unfold ensureEntry
  by_cases ha : bounds.any (fun e => e.1 == idx)
  · rw [if_pos ha]
    exact h
  · rw [if_neg ha]
    rw [List.map_append]
    simp only [List.map_cons, List.map_nil]
    rw [List.nodup_append]
    refine ⟨h, List.nodup_singleton _, ?_⟩
    intro a haa hab
    simp only [List.mem_singleton] at hab
    subst hab
    apply ha
    rw [List.any_eq_true]
    rcases List.mem_map.mp haa with ⟨e, he, hee⟩
    exact ⟨e, he, by simp [hee]⟩

/-- The scanned bounds have pairwise-distinct part indices. -/
theorem scanParts_keys_nodup (data : Store) :
    ((scanParts data).bounds.map Prod.fst).Nodup := by
  unfold scanParts
  have main : ∀ (l : Store) (st : ScanState), (st.bounds.map Prod.fst).Nodup →
      (((l.foldl scanStep st).bounds).map Prod.fst).Nodup := by
    intro l
    induction l with
    | nil => intro st h; simpa using h
    | cons kv rest ih =>
      intro st h
      rw [List.foldl_cons]
      apply ih
      unfold scanStep
      rcases hk : processKey kv.1 kv.2 with _ | j | ⟨j, a, v⟩
      · exact h
      · exact ensureEntry_keys_nodup _ _ h
      · rw [appendSample_keys]
        exact ensureEntry_keys_nodup _ _ h
  exact main data { bounds := [], count := 0 } (by simp)

/-- A successfully parsed point has axis `< 3`. -/
theorem processKey_sample_axis_lt (key : String) (val : Value) (i a : Nat) (v : ℚ)
    (h : processKey key val = .sample i a v) : a < 3 := by
  unfold processKey at h
  simp only at h
  repeat' split at h
  all_goals try cases h
  all_goals assumption

theorem bucketsGet_empty (axis : Nat) : bucketsGet emptyBuckets axis = [] := by
  simp [bucketsGet, emptyBuckets]

/-- Reading an axis bucket after an append: only the appended axis gains
the value. -/
theorem bucketsGet_append (b : Buckets) (a : Nat) (v : ℚ) (axis : Nat)
    (ha : a < 3) (haxis : axis < 3) :
    bucketsGet (bucketsAppend b a v) axis =
      if a = axis then bucketsGet b axis ++ [v] else bucketsGet b axis := by
  interval_cases a <;> interval_cases axis <;> simp [bucketsGet, bucketsAppend]

/-- `find?` on the keys after `appendSample`. -/
theorem find?_appendSample (bounds : List (Nat × Buckets)) (j a : Nat) (v : ℚ) (idx : Nat) :
    (appendSample bounds j a v).find? (fun e => e.1 == idx) =
      (bounds.find? (fun e => e.1 == idx)).map
        (fun e => if e.1 == j then (e.1, bucketsAppend e.2 a v) else e) := by
  induction bounds with
  | nil => rfl
  | cons e rest ih =>
    unfold appendSample at ih ⊢
    simp only [List.map_cons]
    rw [List.find?_cons, List.find?_cons]
    have hkey : ((if e.1 == j then (e.1, bucketsAppend e.2 a v) else e).1 == idx) = (e.1 == idx) := by
      by_cases hej : e.1 == j
      · simp [hej]
      · simp [hej]
    rw [hkey]
    rcases he : (e.1 == idx) with _ | _
    · simpa using ih
    · simp

theorem axisSamples_ensureEntry (bounds : List (Nat × Buckets)) (j idx axis : Nat) :
    axisSamples (ensureEntry bounds j) idx axis = axisSamples bounds idx axis := by
  unfold ensureEntry
  by_cases ha : bounds.any (fun e => e.1 == j)
  · rw [if_pos ha]
  · rw [if_neg ha]
    unfold axisSamples
    rw [List.find?_append]
    rcases hf : bounds.find? (fun e => e.1 == idx) with _ | e
    · rw [hf, Option.none_or]
      rcases hj : ((j == idx) : Bool) with _ | _
      · have hs : List.find? (fun e => e.1 == idx) [(j, emptyBuckets)] = none := by
          simp [List.find?, hj]
        rw [hs]
      · have hs : List.find? (fun e => e.1 == idx) [(j, emptyBuckets)] =
            some (j, emptyBuckets) := by
          simp [List.find?, hj]
        rw [hs]
        simp [bucketsGet_empty]
    · rw [hf]
      simp

theorem axisSamples_appendSample (bounds : List (Nat × Buckets)) (j a : Nat) (v : ℚ)
    (idx axis : Nat) (ha : a < 3) (haxis : axis < 3)
    (hmem : ∃ b, bounds.find? (fun e => e.1 == j) = some (j, b)) :
    axisSamples (appendSample bounds j a v) idx axis =
      axisSamples bounds idx axis ++ (if j = idx ∧ a = axis then [v] else []) := by
  unfold axisSamples
  rw [find?_appendSample]
  rcases hf : bounds.find? (fun e => e.1 == idx) with _ | e
  · rw [hf]
    simp only [Option.map_none']
    by_cases hji : j = idx
    · exfalso
      rcases hmem with ⟨b, hb⟩
      rw [hji] at hb
      rw [hf] at hb
      cases hb
    · simp [hji]
  · rw [hf]
    simp only [Option.map_some']
    have he1 : e.1 = idx := by
      have := List.find?_some hf
      simpa using this
    by_cases hji : j = idx
    · have hej : (e.1 == j) = true := by simp [he1, hji]
      rw [hej]
      rw [if_pos (rfl : (true = true))]
      rw [bucketsGet_append _ _ _ _ ha haxis]
      by_cases haa : a = axis
      · simp [haa, hji]
      · simp [haa, hji]
    · have hej : (e.1 == j) = false := by
        simp only [beq_eq_false_iff_ne, ne_eq, he1]
        exact fun hh => hji hh.symm
      rw [hej]
      simp [hji]

/-- After `ensureEntry`, the key is present. -/
theorem ensureEntry_find (bounds : List (Nat × Buckets)) (j : Nat) :
    ∃ b, (ensureEntry bounds j).find? (fun e => e.1 == j) = some (j, b) := by
  unfold ensureEntry
  by_cases ha : bounds.any (fun e => e.1 == j)
  · rw [if_pos ha]
    rw [List.any_eq_true] at ha
    rcases ha with ⟨e, he, hej⟩
    have : ∃ x, bounds.find? (fun e => e.1 == j) = some x := by
      rw [← Option.isSome_iff_exists]
      rw [List.find?_isSome]
      exact ⟨e, he, hej⟩
    rcases this with ⟨x, hx⟩
    have hx1 : x.1 = j := by simpa using List.find?_some hx
    exact ⟨x.2, by rw [hx]; rw [← hx1]⟩
  · rw [if_neg ha]
    refine ⟨emptyBuckets, ?_⟩
    rw [List.find?_append]
    have h1 : bounds.find? (fun e => e.1 == j) = none := by
      rw [List.find?_eq_none]
      intro x hx
      rw [List.any_eq_true] at ha
      exact fun hc => ha ⟨x, hx, hc⟩
    rw [h1]
    simp [List.find?]

/-- The per-part, per-axis content of the scan is exactly the sequence of
successfully parsed samples for that part and axis, in store order: keys
whose processing fails contribute nothing to any bucket. -/
theorem scan_content_aux (data : Store) (st : ScanState) (idx axis : Nat) (haxis : axis < 3) :
    axisSamples (data.foldl scanStep st).bounds idx axis =
      axisSamples st.bounds idx axis ++
        (data.filterMap goodPoint?).filterMap
          (fun t => if t.1 = idx ∧ t.2.1 = axis then some t.2.2 else none) := by
  induction data generalizing st with
  | nil => simp
  | cons kv rest ih =>
    rw [List.foldl_cons, List.filterMap_cons]
    rcases hk : goodPoint? kv with _ | ⟨⟨j, a, v⟩⟩
    · have hstep : scanStep st kv = st ∨
          ∃ j, scanStep st kv = { st with bounds := ensureEntry st.bounds j } := by
        unfold scanStep
        unfold goodPoint? at hk
        rcases hp : processKey kv.1 kv.2 with _ | j | ⟨j, a, v⟩
        · exact Or.inl rfl
        · exact Or.inr ⟨j, rfl⟩
        · rw [hp] at hk; cases hk
      rcases hstep with hstep | ⟨j, hstep⟩
      · rw [hstep, ih]
      · rw [hstep, ih]
        simp only
        rw [axisSamples_ensureEntry]
    · have hp : processKey kv.1 kv.2 = .sample j a v := by
        unfold goodPoint? at hk
        rcases hq : processKey kv.1 kv.2 with _ | j' | ⟨j', a', v'⟩
        · rw [hq] at hk; cases hk
        · rw [hq] at hk; cases hk
        · rw [hq] at hk
          simp only [Option.some.injEq, Prod.mk.injEq] at hk
          rw [hk.1, hk.2.1, hk.2.2]
      have ha3 : a < 3 := processKey_sample_axis_lt kv.1 kv.2 j a v hp
      have hstep : scanStep st kv =
          { bounds := appendSample (ensureEntry st.bounds j) j a v, count := st.count + 1 } := by
        unfold scanStep
        rw [hp]
      rw [hstep, ih]
      simp only
      rw [axisSamples_appendSample _ _ _ _ _ _ ha3 haxis (ensureEntry_find st.bounds j),
        axisSamples_ensureEntry]
      rw [List.filterMap_cons]
      by_cases hcond : j = idx ∧ a = axis
      · simp [hcond]
      · simp [hcond]

/-- In the scanned bounds, membership determines the `find?` result (keys
are unique). -/
theorem find?_of_mem_nodup {l : List (Nat × Buckets)} (h : (l.map Prod.fst).Nodup)
    {i : Nat} {b : Buckets} (hm : (i, b) ∈ l) :
    l.find? (fun e => e.1 == i) = some (i, b) := by
  induction l with
  | nil => simp at hm
  | cons e rest ih =>
    simp only [List.map_cons, List.nodup_cons] at h
    rw [List.find?_cons]
    rcases List.mem_cons.mp hm with h1 | h1
    · rw [← h1]
      simp
    · have hne : (e.1 == i) = false := by
        simp only [beq_eq_false_iff_ne, ne_eq]
        intro he
        apply h.1
        rw [he]
        simpa using List.mem_map_of_mem Prod.fst h1
      rw [hne]
      exact ih h.2 h1

/-- The scan's point count equals the number of successfully parsed keys. -/
theorem scan_count_aux (data : Store) (st : ScanState) :
    (data.foldl scanStep st).count = st.count + (data.filterMap goodPoint?).length := by
  induction data generalizing st with
  | nil => simp
  | cons kv rest ih =>
    rw [List.foldl_cons, List.filterMap_cons]
    rcases hk : goodPoint? kv with _ | ⟨⟨j, a, v⟩⟩
    · have hstep : (scanStep st kv).count = st.count := by
        unfold scanStep
        unfold goodPoint? at hk
        rcases hp : processKey kv.1 kv.2 with _ | j | ⟨j, a, v⟩
        · rfl
        · rfl
        · rw [hp] at hk; cases hk
      rw [ih]
      rw [hstep]
    · have hp : processKey kv.1 kv.2 = .sample j a v := by
        unfold goodPoint? at hk
        rcases hq : processKey kv.1 kv.2 with _ | j' | ⟨j', a', v'⟩
        · rw [hq] at hk; cases hk
        · rw [hq] at hk; cases hk
        · rw [hq] at hk
          simp only [Option.some.injEq, Prod.mk.injEq] at hk
          rw [hk.1, hk.2.1, hk.2.2]
      have hstep : (scanStep st kv).count = st.count + 1 := by
        unfold scanStep
        rw [hp]
      rw [ih, hstep]
      simp only [List.length_cons]
      omega

/-- When the scan counted zero points, every materialized bucket is empty on
all three axes. -/
theorem scan_count_zero_empty (data : Store) (hc : (scanParts data).count = 0) :
    ∀ e ∈ (scanParts data).bounds, e.2.ax0 = [] ∧ e.2.ax1 = [] ∧ e.2.ax2 = [] := by
  have hpts : data.filterMap goodPoint? = [] := by
    have hlen := scan_count_aux data { bounds := [], count := 0 }
    unfold scanParts at hc
    rw [hc] at hlen
    have hlen0 : (data.filterMap goodPoint?).length = 0 := by omega
    exact List.length_eq_zero.mp hlen0
  intro e he
  rcases e with ⟨i, b⟩
  have hfind := find?_of_mem_nodup (scanParts_keys_nodup data) he
  have hax : ∀ axis, axis < 3 → bucketsGet b axis = [] := by
    intro axis ha
    have hcontent := scan_content_aux data { bounds := [], count := 0 } i axis ha
    rw [hpts] at hcontent
    unfold scanParts at hfind
    unfold axisSamples at hcontent
    rw [hfind] at hcontent
    simpa [List.find?] using hcontent
  refine ⟨?_, ?_, ?_⟩
  · simpa [bucketsGet] using hax 0 (by norm_num)
  · simpa [bucketsGet] using hax 1 (by norm_num)
  · simpa [bucketsGet] using hax 2 (by norm_num)

/-- The emission loop over entries that all get skipped returns the empty
sequence. -/
theorem emitParts_all_none (c : AcfToSdfConverter) (l : List (Nat × Buckets))
    (hall : ∀ e ∈ l, emitPart c e.1 e.2 = .ok none) :
    emitParts c l = .ok [] := by
  induction l with
  | nil => rfl
  | cons e rest ih =>
    rcases e with ⟨i, b⟩
    unfold emitParts
    rw [hall (i, b) (List.mem_cons_self _ _)]
    exact ih (fun x hx => hall x (List.mem_cons_of_mem _ hx))

/-- Evaluation of the whole pipeline on the spec's minimal part-aggregation
input. -/
theorem generate_c2content_eval :
    generate_fuselage_collisions (mkConverter c2content) =
      .ok [{ idx := 0, pos := (-381 / 250, -381 / 1250, 381 / 2500),
             size := (381 / 125, 381 / 625, 381 / 1250) }] := by
  simp +decide [mkConverter, parse_acf, parseLine, pyStripL, pyIsSpace, splitOnCharL,
    splitOnCharAux, pySplitWsL, splitWsAux, startsWithPSpace, dictInsert, mkValue,
    parseTokenL, tryParseFloatL, readDigits, natOfDigits, resolveMass, get_value,
    pyEq0, strEndsWith, c2content, generate_fuselage_collisions, scanParts, scanStep,
    processKey, listHasSub, strDigitsL, geoMark, partMark, partSeg, pyFloatScan,
    floatOfToken, ensureEntry, appendSample, bucketsAppend, emptyBuckets, emitParts,
    emitPart, listMin, listMax, offsetKey, pyFloatBare, fuselagePose, convert_coords,
    List.findIdx_cons, List.findIdx_nil]
  norm_num

/-! ## Claim C2 -/

/-- C2: for every part whose buckets are non-empty on all three axes and
which gets emitted, the emitted size is per-axis `max - min` of the observed
samples, scaled by the length ratio and floored, and the emitted position is
the transform of the per-axis center `(max + min) / 2` composed with the
per-part offsets; in particular, the spec's minimal input (part 0, axis-0
samples {0,10}, axis-1 {0,2}, axis-2 {0,1}, zero offset) emits exactly one
part with size `(10, 2, 1)` scaled by `FT_TO_M` (after flooring at 0.05)
and pre-transform center `(5, 1, 0.5)` mapped through `convert_coords`. -/
theorem c2_part_aggregation :
    (∀ (c : AcfToSdfConverter) (idx : Nat) (b : Buckets) (p : AggregatedPart),
        emitPart c idx b = .ok (some p) →
        b.ax0 ≠ [] ∧ b.ax1 ≠ [] ∧ b.ax2 ≠ [] ∧
        p.size = (max ((listMax b.ax0 - listMin b.ax0) * c.FT_TO_M) (5 / 100),
                  max ((listMax b.ax1 - listMin b.ax1) * c.FT_TO_M) (5 / 100),
                  max ((listMax b.ax2 - listMin b.ax2) * c.FT_TO_M) (5 / 100)) ∧
        (∃ off_x off_y off_z : ℚ,
          pyFloatBare (get_value c.data (offsetKey idx "x") (.tok (.num 0))) = .ok off_x ∧
          pyFloatBare (get_value c.data (offsetKey idx "y") (.tok (.num 0))) = .ok off_y ∧
          pyFloatBare (get_value c.data (offsetKey idx "z") (.tok (.num 0))) = .ok off_z ∧
          p.pos = fuselagePose c (off_z + (listMin b.ax0 + listMax b.ax0) / 2)
            (off_x + (listMin b.ax1 + listMax b.ax1) / 2)
            (off_y + (listMin b.ax2 + listMax b.ax2) / 2))) ∧
    generate_fuselage_collisions (mkConverter c2content) =
      .ok [{ idx := 0,
             pos := convert_coords (mkConverter c2content) 1 (1 / 2) 5,
             size := (max (10 * (3048 / 10000)) (5 / 100),
                      max (2 * (3048 / 10000)) (5 / 100),
                      max (1 * (3048 / 10000)) (5 / 100)) }] := by
  constructor
  · intro c idx b p h
    rcases emitPart_ok_some c idx b p h with ⟨_, h0, h1, h2, _, hsize, hpos⟩
    exact ⟨h0, h1, h2, hsize, hpos⟩
  · rw [generate_c2content_eval]
    norm_num [convert_coords, mkConverter]

/-- C2 witness: the general clause applied to a concrete successful
emission. -/
theorem c2_part_aggregation_witness :
    ({ idx := 0, pos := (-381 / 250, -381 / 1250, 381 / 2500),
       size := (381 / 125, 381 / 625, 381 / 1250) } : AggregatedPart).size =
      (max ((listMax [(0 : ℚ), 10] - listMin [(0 : ℚ), 10]) * (mkConverter "").FT_TO_M) (5 / 100),
       max ((listMax [(0 : ℚ), 2] - listMin [(0 : ℚ), 2]) * (mkConverter "").FT_TO_M) (5 / 100),
       max ((listMax [(0 : ℚ), 1] - listMin [(0 : ℚ), 1]) * (mkConverter "").FT_TO_M) (5 / 100)) := by
  have h : emitPart (mkConverter "") 0 ⟨[0, 10], [0, 2], [0, 1]⟩ =
      .ok (some { idx := 0, pos := (-381 / 250, -381 / 1250, 381 / 2500),
                  size := (381 / 125, 381 / 625, 381 / 1250) }) := by
    simp +decide [mkConverter, parse_acf, parseLine, pyStripL, pyIsSpace, splitOnCharL,
      splitOnCharAux, pySplitWsL, splitWsAux, startsWithPSpace, dictInsert, mkValue,
      parseTokenL, tryParseFloatL, readDigits, natOfDigits, resolveMass, get_value,
      pyEq0, strEndsWith, emitPart, listMin, listMax, offsetKey, pyFloatBare,
      floatOfToken, fuselagePose]
    norm_num
  exact (c2_part_aggregation.1 (mkConverter "") 0 ⟨[0, 10], [0, 2], [0, 1]⟩ _ h).2.2.2.1

/-! ## Claim C6 -/

/-- C6: the number of emitted records is at most the number of materialized
part entries (distinct qualifying part indices); every emitted record has
strictly positive size on all three axes after flooring; a part lacking
samples on at least one axis is never emitted — in particular a store whose
only part has samples on axes 0 and 1 but none on axis 2 emits nothing. -/
theorem c6_emission_invariant :
    (∀ (c : AcfToSdfConverter) (parts : List AggregatedPart),
        generate_fuselage_collisions c = .ok parts →
        parts.length ≤ (scanParts c.data).bounds.length ∧
        (∀ p ∈ parts, 0 < p.size.1 ∧ 0 < p.size.2.1 ∧ 0 < p.size.2.2) ∧
        (∀ idx b, (idx, b) ∈ (scanParts c.data).bounds →
          (b.ax0 = [] ∨ b.ax1 = [] ∨ b.ax2 = []) → ∀ p ∈ parts, p.idx ≠ idx)) ∧
    generate_fuselage_collisions (mkConverter missingAxisContent) = .ok [] := by
  constructor
  · intro c parts h
    unfold generate_fuselage_collisions at h
    by_cases hb : (scanParts c.data).bounds.isEmpty = true
    · rw [if_pos hb] at h
      simp only [Except.ok.injEq] at h
      subst h
      exact ⟨by simp, by simp, by simp⟩
    · rw [if_neg hb] at h
      rcases emitParts_ok c _ parts h with ⟨h1, h2⟩
      refine ⟨h1, ?_, ?_⟩
      · intro p hp
        rcases h2 p hp with ⟨b, _, hb2⟩
        rcases emitPart_ok_some c p.idx b p hb2 with ⟨_, _, _, _, _, hsize, _⟩
        rw [hsize]
        have h005 : (0 : ℚ) < 5 / 100 := by norm_num
        exact ⟨lt_of_lt_of_le h005 (le_max_right _ _),
          lt_of_lt_of_le h005 (le_max_right _ _),
          lt_of_lt_of_le h005 (le_max_right _ _)⟩
      · intro idx b hmem hempty p hp hpidx
        rcases h2 p hp with ⟨b', hb1, hb2⟩
        subst hpidx
        have hbb : b = b' :=
          nodup_assoc_unique (scanParts_keys_nodup c.data) hmem hb1
        rcases emitPart_ok_some c p.idx b' p hb2 with ⟨_, hne0, hne1, hne2, _⟩
        rcases hempty with he | he | he
        · exact hne0 (hbb ▸ he)
        · exact hne1 (hbb ▸ he)
        · exact hne2 (hbb ▸ he)
  · simp +decide [mkConverter, parse_acf, parseLine, pyStripL, pyIsSpace, splitOnCharL,
      splitOnCharAux, pySplitWsL, splitWsAux, startsWithPSpace, dictInsert, mkValue,
      parseTokenL, tryParseFloatL, readDigits, natOfDigits, resolveMass, get_value,
      pyEq0, strEndsWith, missingAxisContent, generate_fuselage_collisions, scanParts,
      scanStep, processKey, listHasSub, strDigitsL, geoMark, partMark, partSeg,
      pyFloatScan, floatOfToken, ensureEntry, appendSample, bucketsAppend, emptyBuckets,
      emitParts, emitPart, listMin, listMax, offsetKey, pyFloatBare, fuselagePose,
      List.findIdx_cons, List.findIdx_nil]

/-- C6 witness: the invariant instantiated on the minimal aggregation
input, which emits exactly one record from one scanned part. -/
theorem c6_emission_invariant_witness :
    (1 : Nat) ≤ (scanParts (mkConverter c2content).data).bounds.length := by
  have h := (c6_emission_invariant.1 (mkConverter c2content)
      [{ idx := 0, pos := (-381 / 250, -381 / 1250, 381 / 2500),
         size := (381 / 125, 381 / 625, 381 / 1250) }] generate_c2content_eval).1
  simpa using h

/-! ## Claim C7 -/

/-- C7: a part whose longitudinal (axis-0) size and lateral (axis-1) size
are both below the 0.01 epsilon is never emitted, regardless of the
vertical extent (both at the single-part level and through the whole
emission, e.g. the `degenContent` store emits nothing despite a large
axis-2 extent); a part with at least epsilon extent on one of the two
dominant axes is not discarded by this filter (the emission either errors
on an offset coercion or emits a record, but never skips it). -/
theorem c7_degeneracy_filter :
    (∀ (c : AcfToSdfConverter) (idx : Nat) (b : Buckets),
        listMax b.ax0 - listMin b.ax0 < 1 / 100 →
        listMax b.ax1 - listMin b.ax1 < 1 / 100 →
        emitPart c idx b = .ok none) ∧
    (∀ (c : AcfToSdfConverter) (parts : List AggregatedPart),
        generate_fuselage_collisions c = .ok parts →
        ∀ idx b, (idx, b) ∈ (scanParts c.data).bounds →
          listMax b.ax0 - listMin b.ax0 < 1 / 100 →
          listMax b.ax1 - listMin b.ax1 < 1 / 100 →
          ∀ p ∈ parts, p.idx ≠ idx) ∧
    (∀ (c : AcfToSdfConverter) (idx : Nat) (b : Buckets),
        b.ax0 ≠ [] → b.ax1 ≠ [] → b.ax2 ≠ [] →
        (1 / 100 ≤ listMax b.ax0 - listMin b.ax0 ∨ 1 / 100 ≤ listMax b.ax1 - listMin b.ax1) →
        emitPart c idx b ≠ .ok none) ∧
    generate_fuselage_collisions (mkConverter degenContent) = .ok [] := by
  refine ⟨?_, ?_, ?_, ?_⟩
  · intro c idx b hl hw
    unfold emitPart
    by_cases hE : (b.ax0.isEmpty || b.ax1.isEmpty || b.ax2.isEmpty) = true
    · rw [if_pos hE]
    · rw [if_neg hE]
      simp only
      rw [if_pos ⟨hl, hw⟩]
  · intro c parts h idx b hmem hl hw p hp hpidx
    unfold generate_fuselage_collisions at h
    by_cases hb : (scanParts c.data).bounds.isEmpty = true
    · rw [if_pos hb] at h
      simp only [Except.ok.injEq] at h
      subst h
      simp at hp
    · rw [if_neg hb] at h
      rcases (emitParts_ok c _ parts h).2 p hp with ⟨b', hb1, hb2⟩
      subst hpidx
      have hbb : b = b' :=
        nodup_assoc_unique (scanParts_keys_nodup c.data) hmem hb1
      rcases emitPart_ok_some c p.idx b' p hb2 with ⟨_, _, _, _, hdeg, _⟩
      exact hdeg ⟨hbb ▸ hl, hbb ▸ hw⟩
  · intro c idx b h0 h1 h2 hext
    unfold emitPart
    rw [if_neg (by simp [List.isEmpty_iff, h0, h1, h2])]
    simp only
    rw [if_neg (by
      intro hc
      rcases hext with hext | hext
      · exact absurd hc.1 (not_lt.mpr hext)
      · exact absurd hc.2 (not_lt.mpr hext))]
    rcases pyFloatBare (get_value c.data (offsetKey idx "x") (.tok (.num 0))) with e | off_x
    · simp
    · rcases pyFloatBare (get_value c.data (offsetKey idx "y") (.tok (.num 0))) with e | off_y
      · simp
      · rcases pyFloatBare (get_value c.data (offsetKey idx "z") (.tok (.num 0))) with e | off_z
        · simp
        · simp
  · simp +decide [mkConverter, parse_acf, parseLine, pyStripL, pyIsSpace, splitOnCharL,
      splitOnCharAux, pySplitWsL, splitWsAux, startsWithPSpace, dictInsert, mkValue,
      parseTokenL, tryParseFloatL, readDigits, natOfDigits, resolveMass, get_value,
      pyEq0, strEndsWith, degenContent, generate_fuselage_collisions, scanParts,
      scanStep, processKey, listHasSub, strDigitsL, geoMark, partMark, partSeg,
      pyFloatScan, floatOfToken, ensureEntry, appendSample, bucketsAppend, emptyBuckets,
      emitParts, emitPart, listMin, listMax, offsetKey, pyFloatBare, fuselagePose,
      List.findIdx_cons, List.findIdx_nil]
    norm_num

/-- C7 witness: the filter applied to a part with tiny axis-0/axis-1 sizes
and a large axis-2 extent, and the no-discard clause applied to a part with
full axis-0 extent. -/
theorem c7_degeneracy_filter_witness :
    emitPart (mkConverter "") 3 ⟨[0, 1 / 1000], [0, 1 / 1000], [0, 50]⟩ = .ok none ∧
    emitPart (mkConverter "") 0 ⟨[0, 10], [0, 2], [0, 1]⟩ ≠ .ok none := by
  constructor
  · exact c7_degeneracy_filter.1 (mkConverter "") 3 ⟨[0, 1 / 1000], [0, 1 / 1000], [0, 50]⟩
      (by norm_num [listMax, listMin]) (by norm_num [listMax, listMin])
  · exact c7_degeneracy_filter.2.2.1 (mkConverter "") 0 ⟨[0, 10], [0, 2], [0, 1]⟩
      (by simp) (by simp) (by simp)
      (Or.inl (by norm_num [listMax, listMin]))

/-! ## Claim C8 -/

/-- C8: scan tolerance.  (1) The per-part, per-axis bucket content after the
scan is exactly the sequence of successfully parsed samples for that part
and axis — a key that fails anywhere in its parsing (filter, malformed
segments, non-three-component trailing triple, non-digit part index or
axis, bad numeric coercion, out-of-range axis) contributes nothing to any
bucket, and in the shallow embedding every exceptional path is a `skip` or
`entryOnly` outcome rather than an abort, so the fold over the whole store
is total.  (2) The point count equals the number of successfully parsed
keys.  (3) When zero qualifying points were counted, the generator emits no
parts and returns an empty result rather than an error. -/
theorem c8_scan_tolerance :
    (∀ (data : Store) (idx axis : Nat), axis < 3 →
        axisSamples (scanParts data).bounds idx axis =
          (data.filterMap goodPoint?).filterMap
            (fun t => if t.1 = idx ∧ t.2.1 = axis then some t.2.2 else none)) ∧
    (∀ data : Store, (scanParts data).count = (data.filterMap goodPoint?).length) ∧
    (∀ c : AcfToSdfConverter, (scanParts c.data).count = 0 →
        generate_fuselage_collisions c = .ok []) := by
  refine ⟨?_, ?_, ?_⟩
  · intro data idx axis h3
    unfold scanParts
    rw [scan_content_aux data { bounds := [], count := 0 } idx axis h3]
    simp [axisSamples, List.find?]
  · intro data
    unfold scanParts
    rw [scan_count_aux data { bounds := [], count := 0 }]
    simp
  · intro c hcount
    unfold generate_fuselage_collisions
    by_cases hb : (scanParts c.data).bounds.isEmpty = true
    · rw [if_pos hb]
    · rw [if_neg hb]
      apply emitParts_all_none
      intro e he
      rcases scan_count_zero_empty c.data hcount e he with ⟨h0, _, _⟩
      unfold emitPart
      rw [if_pos (by simp [h0])]

/-- C8 witness: the content clause on a one-key store whose key does not
qualify, and the empty-result clause on a converter with no structural
points. -/
theorem c8_scan_tolerance_witness :
    (axisSamples (scanParts [("k", Value.tok (.num 1))]).bounds 0 0 =
      ([("k", Value.tok (.num 1))].filterMap goodPoint?).filterMap
        (fun t => if t.1 = 0 ∧ t.2.1 = 0 then some t.2.2 else none)) ∧
    generate_fuselage_collisions (mkConverter "") = .ok [] := by
  constructor
  · exact c8_scan_tolerance.1 [("k", Value.tok (.num 1))] 0 0 (by norm_num)
  · exact c8_scan_tolerance.2.2 (mkConverter "") (by decide)

end Converter
